import Mathlib

/-!
Verification of the prompt-manager tree projection and storage layer.

This file gives a shallow embedding, in Lean, of the data model and the
operations of the prompt-manager repository:

* `StorageService` (src/services/StorageService.ts): prompt/category
  persistence with upsert, soft delete, cascade delete and batch save.
* `PromptTreeDataProvider` (src/views/PromptTreeDataProvider.ts, referred to
  by its location inside src/services/SyncService.ts in the claim list):
  the sidebar tree projection, the search filter and the debounced refresh.
* `PromptManager.searchPrompts` (src/models/PromptManager.ts).

JavaScript strings are embedded as Lean `String`; the handful of host string
functions the code uses (`toLowerCase`, `includes`, `endsWith`, `trim`,
`localeCompare`) are defined below over the character list of the string, so
that every definition is executable by the kernel.  `toLowerCase` is embedded
as ASCII lowercasing and `localeCompare` as character-code lexicographic
comparison; both agree with the host functions on the ASCII data the
repository manipulates.  Machine integers do not occur: all counts are `Nat`.
Fallible operations (`throw` in the source) return `Except String`.
-/

/-- ASCII lowercasing of one character, the observable effect of the host
`toLowerCase` on the characters this codebase stores. -/
def lowChar (c : Char) : Char :=
  if 65 ≤ c.toNat && c.toNat ≤ 90 then Char.ofNat (c.toNat + 32) else c

/-- Embedding of `String.prototype.toLowerCase`. -/
def jsToLower (s : String) : String := ⟨s.data.map lowChar⟩

/-- Does the pattern occur at the head of the list? -/
def strStarts : List Char → List Char → Bool
  | [], _ => true
  | _ :: _, [] => false
  | p :: ps, c :: cs => p == c && strStarts ps cs

/-- Does the pattern occur contiguously anywhere in the list? -/
def hasSubList (pat : List Char) : List Char → Bool
  | [] => pat.isEmpty
  | c :: cs => strStarts pat (c :: cs) || hasSubList pat cs

/-- Embedding of `String.prototype.includes`. -/
def jsIncludes (s pat : String) : Bool := hasSubList pat.data s.data

/-- Embedding of `String.prototype.endsWith`. -/
def jsEndsWith (s pat : String) : Bool := strStarts pat.data.reverse s.data.reverse

/-- White-space test used by `trim`. -/
def wsChar (c : Char) : Bool := c == ' ' || c == '\t' || c == '\n' || c == '\r'

/-- Embedding of `String.prototype.trim`. -/
def jsTrim (s : String) : String :=
  ⟨((s.data.dropWhile wsChar).reverse.dropWhile wsChar).reverse⟩

/-- Character-code lexicographic order on character lists; `charListLe x y`
embeds `x.localeCompare(y) <= 0`. -/
def charListLe : List Char → List Char → Bool
  | [], _ => true
  | _ :: _, [] => false
  | a :: as, b :: bs => if a = b then charListLe as bs else decide (a < b)

/-- Embedding of `a.localeCompare(b) <= 0`. -/
def strLe (a b : String) : Bool := charListLe a.data b.data

theorem charListLe_trans : ∀ (x y z : List Char),
    charListLe x y = true → charListLe y z = true → charListLe x z = true
  | [], _, _, _, _ => rfl
  | _ :: _, [], _, h, _ => by simp [charListLe] at h
  | _ :: _, _ :: _, [], _, h => by simp [charListLe] at h
  | a :: as, b :: bs, c :: cs, h1, h2 => by
    simp only [charListLe] at h1 h2 ⊢
    by_cases hab : a = b <;> by_cases hbc : b = c
    · subst hab; subst hbc; simp at h1 h2 ⊢
      exact charListLe_trans as bs cs h1 h2
    · subst hab; simp [hbc] at h2 ⊢; exact h2
    · subst hbc; simp [hab] at h1 ⊢; exact h1
    · simp [hab, hbc] at h1 h2
      have hac : a < c := lt_trans h1 h2
      simp [ne_of_lt hac, hac]

theorem charListLe_total : ∀ (x y : List Char),
    charListLe x y = true ∨ charListLe y x = true
  | [], _ => Or.inl rfl
  | _ :: _, [] => Or.inr rfl
  | a :: as, b :: bs => by
    by_cases hab : a = b
    · subst hab
      rcases charListLe_total as bs with h | h
      · exact Or.inl (by simp [charListLe, h])
      · exact Or.inr (by simp [charListLe, h])
    · rcases lt_trichotomy a b with h | h | h
      · exact Or.inl (by simp [charListLe, hab, h])
      · exact absurd h hab
      · exact Or.inr (by simp [charListLe, Ne.symm hab, h])

theorem strLe_trans (a b c : String) :
    strLe a b = true → strLe b c = true → strLe a c = true :=
  charListLe_trans a.data b.data c.data

theorem strLe_total (a b : String) : strLe a b = true ∨ strLe b a = true :=
  charListLe_total a.data b.data

/-- A stored prompt record (interface `PromptItem` of src/types).  Optional
fields of the TypeScript interface become `Option`; an absent field is
`none`. -/
structure PromptItem where
  id : String
  title : String
  content : String
  categoryId : Option String
  tags : Option (List String)
deriving DecidableEq, Repr, Inhabited

/-- A stored category record (interface `PromptCategory` of src/types).
`createdAt` is a timestamp, embedded as `Nat`. -/
structure PromptCategory where
  id : String
  name : String
  description : Option String
  icon : Option String
  sortOrder : Option Nat
  createdAt : Option Nat
deriving DecidableEq, Repr, Inhabited

/-- The two collections held by the underlying key-value store
(`STORAGE_KEYS.PROMPTS` and `STORAGE_KEYS.CATEGORIES`). -/
structure StorageState where
  prompts : List PromptItem
  categories : List PromptCategory
deriving DecidableEq, Repr

/-- Body of `StorageService.savePrompt` / one step of `savePrompts`: replace
the first record whose id matches (`findIndex` + assignment), otherwise push
the new record at the end of the collection. -/
def upsertPrompt (q : PromptItem) : List PromptItem → List PromptItem
  | [] => [q]
  | p :: ps => if p.id == q.id then q :: ps else p :: upsertPrompt q ps

/-- Replace the first category whose id matches (`findIndex` + assignment);
`none` when no category has that id. -/
def replaceFirstCategory (c : PromptCategory) : List PromptCategory → Option (List PromptCategory)
  | [] => none
  | x :: xs => if x.id == c.id then some (c :: xs)
               else (replaceFirstCategory c xs).map (fun l => x :: l)

/-- Body of `StorageService.saveCategory` / one step of `saveCategories`:
replace by id when present, otherwise push the record with the defaults
`createdAt: category.createdAt || new Date()` and
`sortOrder: category.sortOrder ?? categories.length`.  `now` embeds the
value of `new Date()`. -/
def upsertCategory (now : Nat) (c : PromptCategory) (categories : List PromptCategory) :
    List PromptCategory :=
  match replaceFirstCategory c categories with
  | some l => l
  | none => categories ++ [{ c with createdAt := some (c.createdAt.getD now),
                                    sortOrder := some (c.sortOrder.getD categories.length) }]

/-- Body of `StorageService.deletePrompt`: set `categoryId` of the first
record whose id matches to absent; `none` when `findIndex` returns `-1`. -/
def clearCategoryOfFirst (id : String) : List PromptItem → Option (List PromptItem)
  | [] => none
  | p :: ps => if p.id == id then some ({ p with categoryId := none } :: ps)
               else (clearCategoryOfFirst id ps).map (fun l => p :: l)

/-- `StorageService.savePrompt` on a store whose host calls succeed. -/
def savePromptSt (q : PromptItem) (s : StorageState) : StorageState :=
  { s with prompts := upsertPrompt q s.prompts }

/-- `StorageService.savePrompts` (batch upsert into `mergedPrompts`); the
returned `OperationResult` carries only the count, so the embedding keeps the
resulting store. -/
def savePromptsSt (ps : List PromptItem) (s : StorageState) : StorageState :=
  { s with prompts := ps.foldl (fun acc p => upsertPrompt p acc) s.prompts }

/-- `StorageService.saveCategory` on a store whose host calls succeed. -/
def saveCategorySt (now : Nat) (c : PromptCategory) (s : StorageState) : StorageState :=
  { s with categories := upsertCategory now c s.categories }

/-- `StorageService.saveCategories` (batch upsert into `mergedCategories`). -/
def saveCategoriesSt (now : Nat) (cs : List PromptCategory) (s : StorageState) : StorageState :=
  { s with categories := cs.foldl (fun acc c => upsertCategory now c acc) s.categories }

/-- `StorageService.updateCategory`: replace by id, throw (here `.error`)
when the id is absent. -/
def updateCategorySt (c : PromptCategory) (s : StorageState) : Except String StorageState :=
  match replaceFirstCategory c s.categories with
  | some l => .ok { s with categories := l }
  | none => .error ("未找到ID为 " ++ c.id ++ " 的分类")

/-- `StorageService.deletePrompt`: soft delete — move the record to the
uncategorized bucket by clearing `categoryId`; throw when the id is absent. -/
def deletePromptSt (id : String) (s : StorageState) : Except String StorageState :=
  match clearCategoryOfFirst id s.prompts with
  | some l => .ok { s with prompts := l }
  | none => .error ("未找到ID为 " ++ id ++ " 的Prompt")

/-- `StorageService.deleteCategory`: drop every category with the given id
(`filter`), throw when nothing was dropped, and clear `categoryId` on every
prompt that referenced the id. -/
def deleteCategorySt (id : String) (s : StorageState) : Except String StorageState :=
  let filteredCategories := s.categories.filter (fun c => !(c.id == id))
  if filteredCategories.length == s.categories.length then
    .error ("未找到ID为 " ++ id ++ " 的分类")
  else
    .ok { categories := filteredCategories,
          prompts := s.prompts.map (fun p =>
            if p.categoryId == some id then { p with categoryId := none } else p) }

/-- `StorageService.clearAll`: reset both collections. -/
def clearAllSt : StorageState := { prompts := [], categories := [] }

/-- The raw host key-value store seen by `StorageService`, together with
flags saying whether the host `globalState.get` / `globalState.update` call
throws.  These are the collaborator failures that the failure policy of the
repository layer is about. -/
structure RawStore where
  prompts : List PromptItem
  categories : List PromptCategory
  promptsReadFails : Bool
  promptsWriteFails : Bool
deriving DecidableEq, Repr

/-- The host read `context.globalState.get(STORAGE_KEYS.PROMPTS, [])`. -/
def rawGetPrompts (st : RawStore) : Except String (List PromptItem) :=
  if st.promptsReadFails then .error "storage read failed" else .ok st.prompts

/-- The host write `context.globalState.update(STORAGE_KEYS.PROMPTS, l)`. -/
def rawUpdatePrompts (st : RawStore) (l : List PromptItem) : Except String RawStore :=
  if st.promptsWriteFails then .error "storage write failed"
  else .ok { st with prompts := l }

/-- `StorageService.getPrompts`: the try/catch converts a host read failure
into the empty list (the spread copy of each record is the record itself). -/
def getPromptsSvc (st : RawStore) : List PromptItem :=
  match rawGetPrompts st with
  | .ok stored => stored.map (fun p => p)
  | .error _ => []

/-- `StorageService.savePrompt`: read (never throws), upsert, then write the
whole collection back; the catch block logs and rethrows, so a host write
failure propagates to the caller. -/
def savePromptSvc (q : PromptItem) (st : RawStore) : Except String RawStore :=
  rawUpdatePrompts st (upsertPrompt q (getPromptsSvc st))

/-- Discriminator of the tree-node union (`TREE_CONTEXT_VALUES`). -/
inductive TreeContextValue
  | promptItem
  | categoryItem
  | guideItem
deriving DecidableEq, Repr

/-- A derived sidebar tree node (`TreePromptItem` union of src/types):
common fields plus the variant payloads.  Purely visual fields of the source
(`iconPath`, `collapsibleState`, `command`, tooltip) carry no data the claims
mention and are not part of the embedding.  `guideCategoryId` is the
`categoryId` field of the `TreeGuideItem` variant. -/
structure TreePromptItem where
  id : String
  label : String
  contextValue : TreeContextValue
  description : Option String := none
  parentId : Option String := none
  sortOrder : Option Nat := none
  promptData : Option PromptItem := none
  categoryData : Option PromptCategory := none
  guideData : Option PromptItem := none
  guideCategoryId : Option String := none
deriving DecidableEq, Repr

/-- `TREE_SPECIAL_CATEGORIES.UNCATEGORIZED`. -/
def uncategorizedId : String := "__uncategorized__"

/-- `PromptTreeDataProvider.createCategoryItem`. -/
def createCategoryItem (category : PromptCategory) (promptCount : Nat) : TreePromptItem :=
  { id := category.id
    label := category.name ++ " (" ++ toString promptCount ++ ")"
    contextValue := .categoryItem
    description := category.description
    categoryData := some category
    sortOrder := category.sortOrder }

/-- `PromptTreeDataProvider.createUncategorizedCategory`. -/
def createUncategorizedCategory (promptCount : Nat) : TreePromptItem :=
  { id := uncategorizedId
    label := "未分类 (" ++ toString promptCount ++ ")"
    contextValue := .categoryItem
    description := some ""
    categoryData := some { id := uncategorizedId, name := "未分类",
                           description := some "未分类的Prompt", icon := some "folder",
                           sortOrder := some 999, createdAt := none } }

/-- `PromptTreeDataProvider.createPromptItem`. -/
def createPromptItem (prompt : PromptItem) (parentId : Option String) : TreePromptItem :=
  { id := prompt.id
    label := prompt.title
    contextValue := .promptItem
    promptData := some prompt
    parentId := parentId }

/-- `PromptTreeDataProvider.createGuideItem`: scan all prompts for the first
one in the category matching the guide convention (id ends with `-guide`, or
title contains the marker `说明书`). -/
def createGuideItem (prompts : List PromptItem) (categoryId : String) :
    Option TreePromptItem :=
  match prompts.find? (fun p => p.categoryId == some categoryId &&
      (jsEndsWith p.id "-guide" || jsIncludes p.title "说明书")) with
  | none => none
  | some guidePrompt => some
      { id := "guide-" ++ categoryId
        label := "📖 说明书"
        contextValue := .guideItem
        guideData := some guidePrompt
        guideCategoryId := some categoryId
        parentId := some categoryId }

/-- The uncategorized test of `getRootItems`/`getChildItems`:
`!p.categoryId` is the JavaScript falsy test, true for an absent and for an
empty `categoryId`. -/
def jsFalsyId : Option String → Bool
  | none => true
  | some s => s == ""

/-- `(p) => !p.categoryId || !categories.some((c) => c.id === p.categoryId)`. -/
def isUncategorizedPrompt (categories : List PromptCategory) (p : PromptItem) : Bool :=
  jsFalsyId p.categoryId || !(categories.any (fun c => p.categoryId == some c.id))

/-- `PromptTreeDataProvider.getCategoryPromptCount` (strict id equality). -/
def categoryPromptCount (categoryId : String) (prompts : List PromptItem) : Nat :=
  (prompts.filter (fun p => p.categoryId == some categoryId)).length

/-- The unfiltered branch of `PromptTreeDataProvider.getRootItems`: one
category node per stored category in iteration order, then the synthetic
uncategorized node iff some prompt has no resolvable category. -/
def getRootItemsPlain (prompts : List PromptItem) (categories : List PromptCategory) :
    List TreePromptItem :=
  let rootItems := categories.map (fun c => createCategoryItem c (categoryPromptCount c.id prompts))
  let uncategorizedPrompts := prompts.filter (isUncategorizedPrompt categories)
  if uncategorizedPrompts.length > 0 then
    rootItems ++ [createUncategorizedCategory uncategorizedPrompts.length]
  else rootItems

/-- `PromptTreeDataProvider.getChildItems`: children of a category node are
the optional guide leaf (ordinary categories only) followed by the prompts of
the category except those whose id is literally `element.id ++ "-guide"`. -/
def getChildItems (element : TreePromptItem) (prompts : List PromptItem)
    (categories : List PromptCategory) : List TreePromptItem :=
  if element.contextValue == .categoryItem then
    let categoryPrompts :=
      if element.id == uncategorizedId then
        prompts.filter (isUncategorizedPrompt categories)
      else
        prompts.filter (fun p => p.categoryId == some element.id)
    let childItems :=
      if element.id != uncategorizedId then
        match createGuideItem prompts element.id with
        | some g => [g]
        | none => []
      else []
    let nonGuidePrompts := categoryPrompts.filter (fun p => !(p.id == element.id ++ "-guide"))
    childItems ++ nonGuidePrompts.map (fun p => createPromptItem p (some element.id))
  else []

/-- The search term actually matched against:
`this.searchFilter.toLowerCase().trim()`. -/
def searchTermOf (f : String) : String := jsTrim (jsToLower f)

/-- Title test of the search loop. -/
def titleMatches (term : String) (p : PromptItem) : Bool :=
  jsIncludes (jsToLower p.title) term

/-- Tag test of the search loop (`prompt.tags?.some(...)`; an absent tag list
matches nothing). -/
def tagMatches (term : String) (p : PromptItem) : Bool :=
  match p.tags with
  | some tags => tags.any (fun tag => jsIncludes (jsToLower tag) term)
  | none => false

/-- Content test of the search loop. -/
def contentMatches (term : String) (p : PromptItem) : Bool :=
  jsIncludes (jsToLower p.content) term

/-- One iteration of the direct-match loop of `getSearchResults` (title, then
tags, then content). -/
def directMatch (term : String) (p : PromptItem) : Bool :=
  titleMatches term p || tagMatches term p || contentMatches term p

/-- The category-name loop of `getSearchResults`. -/
def matchedCategoryIds (term : String) (categories : List PromptCategory) : List String :=
  (categories.filter (fun c => jsIncludes (jsToLower c.name) term)).map PromptCategory.id

/-- One push of the second loop of `getSearchResults`: append the prompt
unless a prompt with the same id was already collected. -/
def pushIfNew (acc : List PromptItem) (p : PromptItem) : List PromptItem :=
  if acc.any (fun mp => mp.id == p.id) then acc else acc ++ [p]

/-- `matchedPrompts` of `getSearchResults` before sorting: the direct matches
in iteration order, then for each matched category its prompts, deduplicated
by id. -/
def matchedPrompts (term : String) (prompts : List PromptItem)
    (categories : List PromptCategory) : List PromptItem :=
  (matchedCategoryIds term categories).foldl
    (fun acc cid => (prompts.filter (fun p => p.categoryId == some cid)).foldl pushIfNew acc)
    (prompts.filter (directMatch term))

/-- The sort comparator of `getSearchResults` as a boolean order:
`searchLe term a b` embeds `comparator(a, b) <= 0` — a title match sorts
before a non-title match, ties are broken by `localeCompare` on the title. -/
def searchLe (term : String) (a b : PromptItem) : Bool :=
  if titleMatches term a != titleMatches term b then titleMatches term a
  else strLe a.title b.title

/-- The sorted matched prompts.  `Array.prototype.sort` with a consistent
comparator is a stable sort whose output is ordered by the comparator; it is
embedded as insertion sort, which is stable and ordered by the same
comparator. -/
def searchResultPrompts (f : String) (prompts : List PromptItem)
    (categories : List PromptCategory) : List PromptItem :=
  List.insertionSort (fun a b => searchLe (searchTermOf f) a b = true)
    (matchedPrompts (searchTermOf f) prompts categories)

/-- `PromptTreeDataProvider.getSearchResults` for the active filter `f`: the
guard `if (!this.searchFilter) return []`, then the sorted matches wrapped as
prompt leaves with no `parentId`. -/
def getSearchResults (f : String) (prompts : List PromptItem)
    (categories : List PromptCategory) : List TreePromptItem :=
  if f == "" then []
  else (searchResultPrompts f prompts categories).map (fun p => createPromptItem p none)

/-- Mutable state of `PromptTreeDataProvider` that the filter path touches:
the active filter, the pending debounced filter value (the single-slot
`searchTimeout` callback) and the cached `treeData`. -/
structure ProviderState where
  searchFilter : Option String
  pendingSearch : Option (Option String)
  treeData : List TreePromptItem
deriving DecidableEq, Repr

/-- Field initializers of `PromptTreeDataProvider`. -/
def initProviderState : ProviderState :=
  { searchFilter := none, pendingSearch := none, treeData := [] }

/-- Events of the filter state machine: a `setSearchFilter(f)` call
(clearTimeout of the previous pending value plus a new setTimeout), and the
firing of the pending debounce timer (the setTimeout callback, which installs
the value and triggers a refresh). -/
inductive FilterEv
  | set (f : Option String)
  | fire
deriving DecidableEq, Repr

/-- One event step of the filter state machine. -/
def stepEv (s : ProviderState) : FilterEv → ProviderState
  | .set f => { s with pendingSearch := some f }
  | .fire =>
    match s.pendingSearch with
    | some f => { s with searchFilter := f, pendingSearch := none }
    | none => s

/-- A whole event trace. -/
def applyEvents (evs : List FilterEv) (s : ProviderState) : ProviderState :=
  evs.foldl stepEv s

/-- `PromptTreeDataProvider.getRootItems`: with an active non-blank filter it
returns the flat search projection and leaves the cache alone; otherwise it
computes the hierarchical projection and caches it in `treeData`. -/
def getRootItemsFull (s : ProviderState) (prompts : List PromptItem)
    (categories : List PromptCategory) : List TreePromptItem × ProviderState :=
  match s.searchFilter with
  | some f =>
    if !(f == "") && !(jsTrim f == "") then (getSearchResults f prompts categories, s)
    else
      let items := getRootItemsPlain prompts categories
      (items, { s with treeData := items })
  | none =>
    let items := getRootItemsPlain prompts categories
    (items, { s with treeData := items })

/-- State of the debounced `refresh()` machinery: the single pending
`refreshTimeout` deadline, and the times at which the change notification
(`_onDidChangeTreeData.fire()`) has fired.  Time is a `Nat` of
milliseconds. -/
structure DebounceState where
  pending : Option Nat
  fired : List Nat
deriving DecidableEq, Repr

/-- `REFRESH_DEBOUNCE_MS`: the 100ms delay passed to `setTimeout` in
`refresh()`. -/
def refreshDebounceMs : Nat := 100

/-- Let a pending timer whose deadline has been reached fire before the
event now being processed (the event loop runs due timer callbacks first). -/
def fireDue (s : DebounceState) (now : Nat) : DebounceState :=
  match s.pending with
  | some d => if d ≤ now then { pending := none, fired := s.fired ++ [d] } else s
  | none => s

/-- A `refresh()` call at time `t`: any pending not-yet-due timer is
cancelled (`clearTimeout`) and a new timer is scheduled for
`t + refreshDebounceMs`. -/
def callRefresh (s : DebounceState) (t : Nat) : DebounceState :=
  let s := fireDue s t
  { pending := some (t + refreshDebounceMs), fired := s.fired }

/-- After the last call, the surviving timer eventually fires. -/
def flushRefresh (s : DebounceState) : List Nat :=
  match s.pending with
  | some d => s.fired ++ [d]
  | none => s.fired

/-- The notification times produced by `refresh()` calls at the given
(nondecreasing) times. -/
def runRefresh (ts : List Nat) : List Nat :=
  flushRefresh (ts.foldl callRefresh { pending := none, fired := [] })

/-- `SearchOptions` of src/types as used by `PromptManager.searchPrompts`. -/
structure SearchOptions where
  includeContent : Option Bool
  includeTags : Option Bool
deriving DecidableEq, Repr

/-- `options?.includeContent !== false` (an absent options object or field
enables the check). -/
def includeContentOn : Option SearchOptions → Bool
  | none => true
  | some o => !(o.includeContent == some false)

/-- `options?.includeTags !== false`. -/
def includeTagsOn : Option SearchOptions → Bool
  | none => true
  | some o => !(o.includeTags == some false)

/-- `PromptManager.searchPrompts`: a blank keyword returns every stored
prompt; otherwise direct matches (title always; content and tags subject to
the options) then prompts of categories whose name or description matches,
deduplicated by id.  No sorting happens here. -/
def searchPromptsMgr (keyword : String) (options : Option SearchOptions)
    (prompts : List PromptItem) (categories : List PromptCategory) : List PromptItem :=
  if keyword == "" || jsTrim keyword == "" then prompts
  else
    let searchTerm := searchTermOf keyword
    let direct := prompts.filter (fun p =>
      titleMatches searchTerm p ||
      (includeContentOn options && contentMatches searchTerm p) ||
      (includeTagsOn options && tagMatches searchTerm p))
    let catIds := (categories.filter (fun c =>
      jsIncludes (jsToLower c.name) searchTerm ||
      (match c.description with
       | some d => jsIncludes (jsToLower d) searchTerm
       | none => false))).map PromptCategory.id
    catIds.foldl
      (fun acc cid => (prompts.filter (fun p => p.categoryId == some cid)).foldl pushIfNew acc)
      direct

/-- A prompt is pulled into the search result through the category path iff
its `categoryId` names a category whose name contains the term. -/
def categoryNameMatch (term : String) (categories : List PromptCategory)
    (p : PromptItem) : Bool :=
  match p.categoryId with
  | some cid => categories.any (fun c => jsIncludes (jsToLower c.name) term && c.id == cid)
  | none => false

/-- The ids of a prompt collection, in order. -/
def promptIds (l : List PromptItem) : List String := l.map PromptItem.id

/-- The ids of a category collection, in order. -/
def categoryIds (l : List PromptCategory) : List String := l.map PromptCategory.id

/-- Example category (the scenario of the specification). -/
def dCatProg : PromptCategory :=
  { id := "programming", name := "编程", description := none, icon := none,
    sortOrder := none, createdAt := none }

/-- Example prompt inside the category. -/
def dP1 : PromptItem :=
  { id := "p1", title := "Sort", content := "", categoryId := some "programming", tags := none }

/-- Example prompt with no category. -/
def dP2 : PromptItem :=
  { id := "p2", title := "Loose", content := "", categoryId := none, tags := none }

/-- Example store holding the two prompts and one category. -/
def dState : StorageState := { prompts := [dP1, dP2], categories := [dCatProg] }

/-- Category with the empty string as id (ids are opaque strings). -/
def eCat : PromptCategory :=
  { id := "", name := "c", description := none, icon := none,
    sortOrder := none, createdAt := none }

/-- Prompt whose `categoryId` is the empty string, i.e. exactly the id of
`eCat`. -/
def eP : PromptItem :=
  { id := "p", title := "t", content := "", categoryId := some "", tags := none }

/-- Example category for the guide convention. -/
def gCat : PromptCategory :=
  { id := "cat", name := "n", description := none, icon := none,
    sortOrder := none, createdAt := none }

/-- Prompt of `gCat` matching the guide convention through its title (the
marker substring) while its id is not `cat-guide`. -/
def gP : PromptItem :=
  { id := "p1", title := "x说明书", content := "", categoryId := some "cat", tags := none }

/-- Example prompt whose title contains the search term. -/
def rP1 : PromptItem :=
  { id := "1", title := "Refactor helper", content := "", categoryId := none, tags := none }

/-- Example prompt matching the search term only through a tag. -/
def rP2 : PromptItem :=
  { id := "2", title := "Helper note", content := "", categoryId := none,
    tags := some ["refactor"] }

/-- A raw store whose host write call throws. -/
def wFailStore : RawStore :=
  { prompts := [dP1], categories := [], promptsReadFails := false, promptsWriteFails := true }

/-- A raw store whose host read call throws. -/
def rFailStore : RawStore :=
  { prompts := [dP1], categories := [], promptsReadFails := true, promptsWriteFails := false }

/-- C10: `PromptManager.searchPrompts` with an empty or whitespace-only
keyword returns the complete stored prompt collection unfiltered, whatever
search options are supplied. -/
theorem c10_blank_keyword_returns_all (keyword : String) (options : Option SearchOptions)
    (prompts : List PromptItem) (categories : List PromptCategory)
    (h : jsTrim keyword = "") :
    searchPromptsMgr keyword options prompts categories = prompts := by
  simp [searchPromptsMgr, h]

/-- Closed instance of `c10_blank_keyword_returns_all` at a whitespace-only
keyword and options that disable every optional match field. -/
theorem c10_blank_keyword_returns_all_witness :
    jsTrim "  " = "" ∧
    searchPromptsMgr "  " (some { includeContent := some false, includeTags := some false })
      [dP1, dP2] [dCatProg] = [dP1, dP2] :=
  ⟨by decide, c10_blank_keyword_returns_all "  " _ _ _ (by decide)⟩

theorem flush_foldl_within (rest : List Nat) : ∀ (t : Nat) (fired : List Nat),
    List.Chain (fun a b => a < b ∧ b < a + refreshDebounceMs) t rest →
    flushRefresh (rest.foldl callRefresh
        { pending := some (t + refreshDebounceMs), fired := fired })
      = fired ++ [rest.getLastD t + refreshDebounceMs] := by
  induction rest with
  | nil => intro t fired _; rfl
  | cons r rest ih =>
    intro t fired h
    rw [List.chain_cons] at h
    obtain ⟨⟨-, hlt⟩, hchain⟩ := h
    have hcall : callRefresh { pending := some (t + refreshDebounceMs), fired := fired } r
        = { pending := some (r + refreshDebounceMs), fired := fired } := by
      simp [callRefresh, fireDue, Nat.not_le.mpr hlt]
    simp only [List.foldl_cons, hcall, List.getLastD_cons]
    exact ih r fired hchain

theorem flush_foldl_beyond (rest : List Nat) : ∀ (t : Nat) (fired : List Nat),
    List.Chain (fun a b => a + refreshDebounceMs < b) t rest →
    flushRefresh (rest.foldl callRefresh
        { pending := some (t + refreshDebounceMs), fired := fired })
      = fired ++ (t :: rest).map (fun x => x + refreshDebounceMs) := by
  induction rest with
  | nil => intro t fired _; rfl
  | cons r rest ih =>
    intro t fired h
    rw [List.chain_cons] at h
    obtain ⟨hlt, hchain⟩ := h
    have hcall : callRefresh { pending := some (t + refreshDebounceMs), fired := fired } r
        = { pending := some (r + refreshDebounceMs),
            fired := fired ++ [t + refreshDebounceMs] } := by
      simp [callRefresh, fireDue, Nat.le_of_lt hlt]
    simp only [List.foldl_cons, hcall]
    rw [ih r (fired ++ [t + refreshDebounceMs]) hchain]
    simp

/-- C8: calls to `refresh()` whose consecutive spacing stays inside the
100ms debounce window produce exactly one notification, fired one window
after the last call (trailing edge); calls spaced beyond the window each
produce their own notification, one window after each call. -/
theorem c8_refresh_debounce (t : Nat) (rest : List Nat) :
    (List.Chain (fun a b => a < b ∧ b < a + refreshDebounceMs) t rest →
      runRefresh (t :: rest) = [rest.getLastD t + refreshDebounceMs]) ∧
    (List.Chain (fun a b => a + refreshDebounceMs < b) t rest →
      runRefresh (t :: rest) = (t :: rest).map (fun x => x + refreshDebounceMs)) := by
  have hfirst : callRefresh { pending := none, fired := [] } t
      = { pending := some (t + refreshDebounceMs), fired := [] } := rfl
  constructor
  · intro h
    unfold runRefresh
    rw [List.foldl_cons, hfirst, flush_foldl_within rest t [] h]
    rfl
  · intro h
    unfold runRefresh
    rw [List.foldl_cons, hfirst, flush_foldl_beyond rest t [] h]
    simp

/-- Closed instance of `c8_refresh_debounce`: three calls 50ms apart give a
single notification at 190ms; three calls 200ms apart give three. -/
theorem c8_refresh_debounce_witness :
    runRefresh [0, 50, 90] = [190] ∧ runRefresh [0, 200, 400] = [100, 300, 500] :=
  ⟨(c8_refresh_debounce 0 [50, 90]).1
      (by norm_num [List.chain_cons, refreshDebounceMs]),
   (c8_refresh_debounce 0 [200, 400]).2
      (by norm_num [List.chain_cons, refreshDebounceMs])⟩

/-- C7: after any sequence of `setSearchFilter` calls that ends with
`setSearchFilter(null)` whose debounce has taken effect, `getRootItems`
returns exactly what it returns on a provider that never had a filter set
(over the same stored data). -/
theorem c7_clear_filter_reverts (evs : List FilterEv) (prompts : List PromptItem)
    (categories : List PromptCategory) :
    (getRootItemsFull (applyEvents (evs ++ [FilterEv.set none, FilterEv.fire])
        initProviderState) prompts categories).1
      = (getRootItemsFull initProviderState prompts categories).1 := by
  simp only [applyEvents, List.foldl_append]
  rfl

/-- C2 (code bug): in category `cat`, the prompt `gP` matches the guide
convention through its title marker while its id is not `cat-guide`; the
children of the category then contain `gP` twice — once as the guide leaf in
first position and once more as an ordinary prompt leaf, because the
exclusion filter only removes ids literally equal to `cat-guide`. -/
theorem c2_guide_duplicated_in_children :
    (getChildItems (createCategoryItem gCat 1) [gP] [gCat]).length = 2 ∧
    ((getChildItems (createCategoryItem gCat 1) [gP] [gCat]).head?.bind
        TreePromptItem.guideData) = some gP ∧
    ((getChildItems (createCategoryItem gCat 1) [gP] [gCat]).getLast?.bind
        TreePromptItem.promptData) = some gP := by
  decide

/-- C1 counterexample: take one category whose id is the empty string and
one prompt whose `categoryId` is that same empty string.  Every stored
prompt then has a `categoryId` equal to an existing category id, so the
claim says no uncategorized node is emitted; yet `getRootItems` appends one,
because the JavaScript test `!p.categoryId` also treats the present-but-empty
id as missing. -/
theorem c1_counterexample :
    (∀ p ∈ [eP], ∃ c ∈ [eCat], p.categoryId = some c.id) ∧
    getRootItemsPlain [eP] [eCat]
      = [createCategoryItem eCat 1, createUncategorizedCategory 1] := by
  decide

/-- C1 (amended): with no filter active, `getRootItems` emits one category
node per stored category in iteration order labeled `name (count)` with the
count of prompts whose `categoryId` equals that category's id, and appends
the synthetic `未分类 (count)` node as last element iff at least one prompt
has an absent *or empty* `categoryId` or one matching no stored category id;
otherwise it emits no uncategorized node. -/
theorem c1_root_items (prompts : List PromptItem) (categories : List PromptCategory) :
    ((∃ p ∈ prompts, isUncategorizedPrompt categories p = true) →
      getRootItemsPlain prompts categories =
        categories.map (fun c => createCategoryItem c (categoryPromptCount c.id prompts)) ++
          [createUncategorizedCategory
            (prompts.filter (isUncategorizedPrompt categories)).length]) ∧
    ((∀ p ∈ prompts, isUncategorizedPrompt categories p = false) →
      getRootItemsPlain prompts categories =
        categories.map (fun c => createCategoryItem c (categoryPromptCount c.id prompts))) ∧
    (∀ c n, (createCategoryItem c n).label = c.name ++ " (" ++ toString n ++ ")") ∧
    (∀ n, (createUncategorizedCategory n).label = "未分类 (" ++ toString n ++ ")") := by
  refine ⟨?_, ?_, fun c n => rfl, fun n => rfl⟩
  · rintro ⟨p, hp, hu⟩
    have hmem : p ∈ prompts.filter (isUncategorizedPrompt categories) :=
      List.mem_filter.mpr ⟨hp, hu⟩
    have hlen : 0 < (prompts.filter (isUncategorizedPrompt categories)).length :=
      List.length_pos.mpr (fun hnil => by simp [hnil] at hmem)
    simp [getRootItemsPlain, hlen]
  · intro h
    have hnil : prompts.filter (isUncategorizedPrompt categories) = [] := by
      rw [List.filter_eq_nil_iff]
      intro a ha
      simp [h a ha]
    simp [getRootItemsPlain, hnil]

/-- Closed instance of `c1_root_items`: the scenario of the specification —
one category, one prompt inside it, one loose prompt. -/
theorem c1_root_items_witness :
    getRootItemsPlain [dP1, dP2] [dCatProg]
      = [createCategoryItem dCatProg 1, createUncategorizedCategory 1] := by
  have h := (c1_root_items [dP1, dP2] [dCatProg]).1 ⟨dP2, by decide, by decide⟩
  exact h

/-- C6 counterexample: `savePrompt` does not convert the underlying failure
into a safe default — its catch block logs and rethrows, so on a store whose
host write call throws, the error propagates to the caller. -/
theorem c6_counterexample :
    savePromptSvc dP2 wFailStore = .error "storage write failed" := rfl

/-- C6 (amended): the read path is total — `getPrompts` never throws, it
returns the stored collection and falls back to the empty sequence when the
host read fails; but the write path of `savePrompt` rethrows: a host write
failure propagates as an error to the caller instead of a safe default. -/
theorem c6_failure_policy (st : RawStore) (q : PromptItem) :
    (st.promptsReadFails = true → getPromptsSvc st = []) ∧
    (st.promptsReadFails = false → getPromptsSvc st = st.prompts) ∧
    (st.promptsWriteFails = true → ∃ e, savePromptSvc q st = .error e) ∧
    (st.promptsWriteFails = false → ∃ st', savePromptSvc q st = .ok st') := by
  refine ⟨fun h => ?_, fun h => ?_, fun h => ?_, fun h => ?_⟩
  · simp [getPromptsSvc, rawGetPrompts, h]
  · simp [getPromptsSvc, rawGetPrompts, h, List.map_id']
  · exact ⟨"storage write failed", by simp [savePromptSvc, rawUpdatePrompts, h]⟩
  · exact ⟨{ st with prompts := upsertPrompt q (getPromptsSvc st) },
      by simp [savePromptSvc, rawUpdatePrompts, h]⟩

/-- Closed instance of `c6_failure_policy` at a store with a failing read and
at a store with a failing write. -/
theorem c6_failure_policy_witness :
    getPromptsSvc rFailStore = [] ∧
    (∃ e, savePromptSvc dP2 wFailStore = .error e) ∧
    getPromptsSvc wFailStore = [dP1] :=
  ⟨(c6_failure_policy rFailStore dP2).1 rfl,
   (c6_failure_policy wFailStore dP2).2.2.1 rfl,
   (c6_failure_policy wFailStore dP2).2.1 rfl⟩

theorem clearCategoryOfFirst_eq_none (id : String) (ps : List PromptItem) :
    clearCategoryOfFirst id ps = none ↔ ∀ p ∈ ps, p.id ≠ id := by
  induction ps with
  | nil => simp [clearCategoryOfFirst]
  | cons p ps ih =>
    by_cases h : p.id = id
    · simp [clearCategoryOfFirst, h]
    · simp [clearCategoryOfFirst, h, Option.map_eq_none', ih]

theorem clearCategoryOfFirst_eq_some (id : String) :
    ∀ (ps l : List PromptItem), clearCategoryOfFirst id ps = some l →
    ∃ l1 p l2, ps = l1 ++ p :: l2 ∧ p.id = id ∧ (∀ q ∈ l1, q.id ≠ id) ∧
      l = l1 ++ { p with categoryId := none } :: l2 := by
  intro ps
  induction ps with
  | nil => intro l h; simp [clearCategoryOfFirst] at h
  | cons p ps ih =>
    intro l h
    by_cases hp : p.id = id
    · simp [clearCategoryOfFirst, hp] at h
      exact ⟨[], p, ps, by simp, hp, by simp, by simp [← h, hp]⟩
    · simp [clearCategoryOfFirst, hp] at h
      obtain ⟨a, ha, hl⟩ := h
      obtain ⟨l1, q, l2, hps, hq, hl1, hal⟩ := ih a ha
      refine ⟨p :: l1, q, l2, by simp [hps], hq, ?_, by simp [← hl, hal]⟩
      intro r hr
      rcases List.mem_cons.mp hr with hr | hr
      · exact hr ▸ hp
      · exact hl1 r hr

/-- C5: `deletePrompt(id)` fails iff no stored prompt has that id; when one
does, the operation only clears that record's `categoryId` — the record
stays stored with its id, title, content and tags unchanged, every other
record is untouched, and the category collection is untouched.  (An error
result performs no write, so the store is unchanged in that case.) -/
theorem c5_deletePrompt_soft_delete (id : String) (s : StorageState) :
    ((∃ e, deletePromptSt id s = .error e) ↔ ∀ p ∈ s.prompts, p.id ≠ id) ∧
    ((∃ p ∈ s.prompts, p.id = id) →
      ∃ s' l1 p l2, deletePromptSt id s = .ok s' ∧ s'.categories = s.categories ∧
        s.prompts = l1 ++ p :: l2 ∧ p.id = id ∧ (∀ q ∈ l1, q.id ≠ id) ∧
        s'.prompts = l1 ++ { p with categoryId := none } :: l2) := by
  constructor
  · cases hcl : clearCategoryOfFirst id s.prompts with
    | none =>
      exact iff_of_true ⟨"未找到ID为 " ++ id ++ " 的Prompt", by simp [deletePromptSt, hcl]⟩
        ((clearCategoryOfFirst_eq_none id s.prompts).mp hcl)
    | some l =>
      refine iff_of_false (by simp [deletePromptSt, hcl]) ?_
      intro hall
      rw [(clearCategoryOfFirst_eq_none id s.prompts).mpr hall] at hcl
      cases hcl
  · rintro ⟨p₀, hp₀, hid⟩
    cases hcl : clearCategoryOfFirst id s.prompts with
    | none =>
      exact absurd hid ((clearCategoryOfFirst_eq_none id s.prompts).mp hcl p₀ hp₀)
    | some l =>
      obtain ⟨l1, p, l2, hps, hpid, hl1, hl⟩ := clearCategoryOfFirst_eq_some id s.prompts l hcl
      exact ⟨{ s with prompts := l }, l1, p, l2, by simp [deletePromptSt, hcl], rfl,
        hps, hpid, hl1, by simp [hl]⟩

/-- Closed instance of `c5_deletePrompt_soft_delete`: soft-delete of `p1` in
the example store. -/
theorem c5_deletePrompt_soft_delete_witness :
    ∃ s' l1 p l2, deletePromptSt "p1" dState = .ok s' ∧ s'.categories = dState.categories ∧
      dState.prompts = l1 ++ p :: l2 ∧ p.id = "p1" ∧ (∀ q ∈ l1, q.id ≠ "p1") ∧
      s'.prompts = l1 ++ { p with categoryId := none } :: l2 :=
  (c5_deletePrompt_soft_delete "p1" dState).2 ⟨dP1, by decide, by decide⟩

/-- C3: `deleteCategory(id)` fails with the NotFound error (performing no
write, hence leaving the store unchanged) when no category has that id; when
one exists, the resulting store has the category removed and no prompt
referencing the deleted id — every referencing prompt has its `categoryId`
cleared to absent and every other prompt is kept as is. -/
theorem c3_deleteCategory_cascade (id : String) (s : StorageState) :
    ((∀ c ∈ s.categories, c.id ≠ id) → ∃ e, deleteCategorySt id s = .error e) ∧
    ((∃ c ∈ s.categories, c.id = id) →
      ∃ s', deleteCategorySt id s = .ok s' ∧
        s'.categories = s.categories.filter (fun c => !(c.id == id)) ∧
        (∀ c ∈ s'.categories, c.id ≠ id) ∧
        (∀ p ∈ s'.prompts, p.categoryId ≠ some id) ∧
        (∀ p ∈ s.prompts, p.categoryId = some id →
          { p with categoryId := none } ∈ s'.prompts) ∧
        (∀ p ∈ s.prompts, p.categoryId ≠ some id → p ∈ s'.prompts)) := by
  constructor
  · intro hall
    have hfil : s.categories.filter (fun c => !(c.id == id)) = s.categories := by
      rw [List.filter_eq_self]
      intro c hc
      simp [hall c hc]
    refine ⟨"未找到ID为 " ++ id ++ " 的分类", ?_⟩
    simp [deleteCategorySt, hfil]
  · rintro ⟨c₀, hc₀, hcid⟩
    have hlt : (s.categories.filter (fun c => !(c.id == id))).length < s.categories.length :=
      List.length_filter_lt_length_iff_exists.mpr ⟨c₀, hc₀, by simp [hcid]⟩
    have hne : ((s.categories.filter (fun c => !(c.id == id))).length
        == s.categories.length) = false :=
      beq_eq_false_iff_ne.mpr (Nat.ne_of_lt hlt)
    refine ⟨{ categories := s.categories.filter (fun c => !(c.id == id)),
              prompts := s.prompts.map (fun p =>
                if p.categoryId == some id then { p with categoryId := none } else p) },
      ?_, rfl, ?_, ?_, ?_, ?_⟩
    · simp [deleteCategorySt, hne]
    · intro c hc
      have := (List.mem_filter.mp hc).2
      simpa using this
    · intro p hp
      obtain ⟨q, hq, hqp⟩ := List.mem_map.mp hp
      by_cases hqc : q.categoryId = some id
      · simp [hqc] at hqp
        rw [← hqp]
        simp
      · simp [hqc] at hqp
        rw [← hqp]
        exact hqc
    · intro p hp hpc
      have : (fun p => if p.categoryId == some id then { p with categoryId := none } else p) p
          = { p with categoryId := none } := by simp [hpc]
      rw [← this]
      exact List.mem_map_of_mem _ hp
    · intro p hp hpc
      have : (fun p => if p.categoryId == some id then { p with categoryId := none } else p) p
          = p := by simp [hpc]
      rw [← this]
      exact List.mem_map_of_mem _ hp

/-- Closed instance of `c3_deleteCategory_cascade`: deleting `programming`
from the example store. -/
theorem c3_deleteCategory_cascade_witness :
    ∃ s', deleteCategorySt "programming" dState = .ok s' ∧
      s'.categories = dState.categories.filter (fun c => !(c.id == "programming")) ∧
      (∀ c ∈ s'.categories, c.id ≠ "programming") ∧
      (∀ p ∈ s'.prompts, p.categoryId ≠ some "programming") ∧
      (∀ p ∈ dState.prompts, p.categoryId = some "programming" →
        { p with categoryId := none } ∈ s'.prompts) ∧
      (∀ p ∈ dState.prompts, p.categoryId ≠ some "programming" → p ∈ s'.prompts) :=
  (c3_deleteCategory_cascade "programming" dState).2 ⟨dCatProg, by decide, by decide⟩

theorem mem_promptIds_upsertPrompt (q : PromptItem) (x : String) :
    ∀ (ps : List PromptItem), x ∈ promptIds (upsertPrompt q ps) →
      x ∈ promptIds ps ∨ x = q.id := by
  intro ps
  induction ps with
  | nil => simp [upsertPrompt, promptIds]
  | cons p ps ih =>
    by_cases h : p.id = q.id
    · simp only [upsertPrompt, h, beq_self_eq_true, if_true, promptIds, List.map_cons]
      intro hx
      rcases List.mem_cons.mp hx with hx | hx
      · exact Or.inr hx
      · exact Or.inl (List.mem_cons_of_mem _ hx)
    · have hb : (p.id == q.id) = false := beq_eq_false_iff_ne.mpr h
      simp only [upsertPrompt, hb, Bool.false_eq_true, if_false, promptIds, List.map_cons]
      intro hx
      rcases List.mem_cons.mp hx with hx | hx
      · exact Or.inl (hx ▸ List.mem_cons_self _ _)
      · rcases ih hx with hx | hx
        · exact Or.inl (List.mem_cons_of_mem _ hx)
        · exact Or.inr hx

theorem nodup_upsertPrompt (q : PromptItem) :
    ∀ (ps : List PromptItem), (promptIds ps).Nodup → (promptIds (upsertPrompt q ps)).Nodup := by
  intro ps
  induction ps with
  | nil => intro _; simp [upsertPrompt, promptIds]
  | cons p ps ih =>
    intro hnd
    rw [promptIds, List.map_cons, List.nodup_cons] at hnd
    obtain ⟨hpn, hnd⟩ := hnd
    by_cases h : p.id = q.id
    · simp only [upsertPrompt, h, beq_self_eq_true, if_true, promptIds, List.map_cons,
        List.nodup_cons]
      exact ⟨h ▸ hpn, hnd⟩
    · have hb : (p.id == q.id) = false := beq_eq_false_iff_ne.mpr h
      simp only [upsertPrompt, hb, Bool.false_eq_true, if_false, promptIds, List.map_cons,
        List.nodup_cons]
      refine ⟨?_, ih hnd⟩
      intro hx
      rcases mem_promptIds_upsertPrompt q p.id ps hx with hx | hx
      · exact hpn hx
      · exact h hx

theorem nodup_foldl_upsertPrompt (batch : List PromptItem) :
    ∀ (acc : List PromptItem), (promptIds acc).Nodup →
      (promptIds (batch.foldl (fun a p => upsertPrompt p a) acc)).Nodup := by
  induction batch with
  | nil => intro acc h; exact h
  | cons b batch ih =>
    intro acc h
    exact ih (upsertPrompt b acc) (nodup_upsertPrompt b acc h)

theorem replaceFirstCategory_eq_none (c : PromptCategory) :
    ∀ (cs : List PromptCategory), replaceFirstCategory c cs = none ↔ ∀ x ∈ cs, x.id ≠ c.id := by
  intro cs
  induction cs with
  | nil => simp [replaceFirstCategory]
  | cons x xs ih =>
    by_cases h : x.id = c.id
    · simp [replaceFirstCategory, h]
    · simp [replaceFirstCategory, h, Option.map_eq_none', ih]

theorem categoryIds_replaceFirstCategory (c : PromptCategory) :
    ∀ (cs l : List PromptCategory), replaceFirstCategory c cs = some l →
      categoryIds l = categoryIds cs := by
  intro cs
  induction cs with
  | nil => intro l h; simp [replaceFirstCategory] at h
  | cons x xs ih =>
    intro l h
    by_cases hx : x.id = c.id
    · simp [replaceFirstCategory, hx] at h
      rw [← h]
      simp [categoryIds, hx]
    · simp [replaceFirstCategory, hx] at h
      obtain ⟨a, ha, hl⟩ := h
      rw [← hl]
      simp only [categoryIds, List.map_cons]
      rw [show List.map PromptCategory.id a = categoryIds a from rfl, ih a ha]
      rfl

theorem nodup_upsertCategory (now : Nat) (c : PromptCategory) (cs : List PromptCategory)
    (h : (categoryIds cs).Nodup) : (categoryIds (upsertCategory now c cs)).Nodup := by
  unfold upsertCategory
  cases hr : replaceFirstCategory c cs with
  | some l =>
    rw [categoryIds_replaceFirstCategory c cs l hr]
    exact h
  | none =>
    have hall := (replaceFirstCategory_eq_none c cs).mp hr
    have hnotin : c.id ∉ categoryIds cs := by
      intro hx
      obtain ⟨y, hy, hyid⟩ := List.mem_map.mp hx
      exact hall y hy hyid
    rw [categoryIds, List.map_append]
    rw [List.nodup_append]
    refine ⟨h, by simp, ?_⟩
    simp only [List.map_cons, List.map_nil, List.disjoint_singleton]
    exact hnotin

theorem nodup_foldl_upsertCategory (now : Nat) (cbatch : List PromptCategory) :
    ∀ (acc : List PromptCategory), (categoryIds acc).Nodup →
      (categoryIds (cbatch.foldl (fun a c => upsertCategory now c a) acc)).Nodup := by
  induction cbatch with
  | nil => intro acc h; exact h
  | cons b cbatch ih =>
    intro acc h
    exact ih (upsertCategory now b acc) (nodup_upsertCategory now b acc h)

theorem promptIds_clearCategoryOfFirst (id : String) :
    ∀ (ps l : List PromptItem), clearCategoryOfFirst id ps = some l →
      promptIds l = promptIds ps := by
  intro ps l h
  obtain ⟨l1, p, l2, hps, -, -, hl⟩ := clearCategoryOfFirst_eq_some id ps l h
  rw [hps, hl]
  simp [promptIds]

/-- C9: on a store whose prompt ids are pairwise distinct and whose category
ids are pairwise distinct, every mutating repository operation preserves both
distinctness invariants: an upsert whose id matches an existing record
replaces it in place and never appends a second record with that id. -/
theorem c9_mutations_preserve_distinct_ids (s : StorageState) (q : PromptItem)
    (c : PromptCategory) (batch : List PromptItem) (cbatch : List PromptCategory)
    (pid cid : String) (now : Nat)
    (hp : (promptIds s.prompts).Nodup) (hc : (categoryIds s.categories).Nodup) :
    ((promptIds (savePromptSt q s).prompts).Nodup ∧
      (categoryIds (savePromptSt q s).categories).Nodup) ∧
    ((promptIds (savePromptsSt batch s).prompts).Nodup ∧
      (categoryIds (savePromptsSt batch s).categories).Nodup) ∧
    ((promptIds (saveCategorySt now c s).prompts).Nodup ∧
      (categoryIds (saveCategorySt now c s).categories).Nodup) ∧
    ((promptIds (saveCategoriesSt now cbatch s).prompts).Nodup ∧
      (categoryIds (saveCategoriesSt now cbatch s).categories).Nodup) ∧
    (∀ s', updateCategorySt c s = .ok s' →
      (promptIds s'.prompts).Nodup ∧ (categoryIds s'.categories).Nodup) ∧
    (∀ s', deletePromptSt pid s = .ok s' →
      (promptIds s'.prompts).Nodup ∧ (categoryIds s'.categories).Nodup) ∧
    (∀ s', deleteCategorySt cid s = .ok s' →
      (promptIds s'.prompts).Nodup ∧ (categoryIds s'.categories).Nodup) ∧
    ((promptIds clearAllSt.prompts).Nodup ∧ (categoryIds clearAllSt.categories).Nodup) := by
  refine ⟨⟨nodup_upsertPrompt q s.prompts hp, hc⟩,
          ⟨nodup_foldl_upsertPrompt batch s.prompts hp, hc⟩,
          ⟨hp, nodup_upsertCategory now c s.categories hc⟩,
          ⟨hp, nodup_foldl_upsertCategory now cbatch s.categories hc⟩,
          ?_, ?_, ?_, by simp [clearAllSt, promptIds, categoryIds]⟩
  · intro s' h
    cases hr : replaceFirstCategory c s.categories with
    | none => simp [updateCategorySt, hr] at h
    | some l =>
      simp [updateCategorySt, hr] at h
      rw [← h]
      exact ⟨hp, by rw [show ({ s with categories := l } : StorageState).categories = l from rfl,
        categoryIds_replaceFirstCategory c s.categories l hr]; exact hc⟩
  · intro s' h
    cases hr : clearCategoryOfFirst pid s.prompts with
    | none => simp [deletePromptSt, hr] at h
    | some l =>
      simp [deletePromptSt, hr] at h
      rw [← h]
      exact ⟨by rw [show ({ s with prompts := l } : StorageState).prompts = l from rfl,
        promptIds_clearCategoryOfFirst pid s.prompts l hr]; exact hp, hc⟩
  · intro s' h
    by_cases hg : ((s.categories.filter (fun x => !(x.id == cid))).length
        == s.categories.length) = true
    · simp [deleteCategorySt, hg] at h
    · have hok : deleteCategorySt cid s = .ok
          { prompts := s.prompts.map (fun p =>
              if p.categoryId == some cid then { p with categoryId := none } else p),
            categories := s.categories.filter (fun x => !(x.id == cid)) } := by
        simp only [Bool.not_eq_true] at hg
        simp [deleteCategorySt, hg]
      rw [hok] at h
      obtain rfl : _ = s' := Except.ok.inj h
      constructor
      · show (promptIds (s.prompts.map (fun p =>
          if p.categoryId == some cid then { p with categoryId := none } else p))).Nodup
        have hids : promptIds (s.prompts.map (fun p =>
            if p.categoryId == some cid then { p with categoryId := none } else p))
            = promptIds s.prompts := by
          rw [promptIds, promptIds, List.map_map]
          refine List.map_congr_left ?_
          intro p _
          by_cases hq : p.categoryId = some cid
          · simp [hq]
          · simp [hq]
        rw [hids]
        exact hp
      · show (categoryIds (s.categories.filter (fun x => !(x.id == cid)))).Nodup
        exact ((List.filter_sublist s.categories).map PromptCategory.id).nodup hc

/-- Closed instance of `c9_mutations_preserve_distinct_ids` on the example
store: the id invariants after an in-place upsert and after the cascade
delete. -/
theorem c9_mutations_preserve_distinct_ids_witness :
    (promptIds (savePromptSt dP1 dState).prompts).Nodup ∧
    (∀ s', deleteCategorySt "programming" dState = .ok s' →
      (promptIds s'.prompts).Nodup ∧ (categoryIds s'.categories).Nodup) := by
  have h := c9_mutations_preserve_distinct_ids dState dP1 dCatProg [dP1, dP2] [dCatProg]
      "p1" "programming" 0 (by decide) (by decide)
  exact ⟨h.1.1, h.2.2.2.2.2.2.1⟩

theorem any_id_eq_true (acc : List PromptItem) (x : String) :
    (acc.any (fun mp => mp.id == x)) = true ↔ x ∈ promptIds acc := by
  rw [List.any_eq_true, promptIds]
  constructor
  · rintro ⟨mp, hmp, hid⟩
    exact List.mem_map.mpr ⟨mp, hmp, beq_iff_eq.mp hid⟩
  · intro hx
    obtain ⟨mp, hmp, hid⟩ := List.mem_map.mp hx
    exact ⟨mp, hmp, beq_iff_eq.mpr hid⟩

theorem mem_of_mem_pushIfNew (acc : List PromptItem) (p q : PromptItem)
    (h : q ∈ pushIfNew acc p) : q ∈ acc ∨ q = p := by
  unfold pushIfNew at h
  by_cases hc : (acc.any (fun mp => mp.id == p.id)) = true
  · rw [if_pos hc] at h
    exact Or.inl h
  · rw [if_neg hc] at h
    rcases List.mem_append.mp h with h | h
    · exact Or.inl h
    · exact Or.inr (List.mem_singleton.mp h)

theorem mem_pushIfNew_of_mem (acc : List PromptItem) (p q : PromptItem)
    (h : q ∈ acc) : q ∈ pushIfNew acc p := by
  unfold pushIfNew
  split
  · exact h
  · exact List.mem_append_left _ h

theorem promptIds_pushIfNew (acc : List PromptItem) (p : PromptItem) (x : String) :
    x ∈ promptIds (pushIfNew acc p) ↔ x ∈ promptIds acc ∨ x = p.id := by
  unfold pushIfNew
  by_cases hc : (acc.any (fun mp => mp.id == p.id)) = true
  · rw [if_pos hc]
    constructor
    · exact Or.inl
    · rintro (h | rfl)
      · exact h
      · exact (any_id_eq_true acc p.id).mp hc
  · rw [if_neg hc]
    simp [promptIds]

theorem nodup_pushIfNew (acc : List PromptItem) (p : PromptItem)
    (h : (promptIds acc).Nodup) : (promptIds (pushIfNew acc p)).Nodup := by
  unfold pushIfNew
  by_cases hc : (acc.any (fun mp => mp.id == p.id)) = true
  · rw [if_pos hc]
    exact h
  · rw [if_neg hc]
    rw [promptIds, List.map_append, List.nodup_append]
    refine ⟨h, by simp, ?_⟩
    simp only [List.map_cons, List.map_nil, List.disjoint_singleton]
    intro hx
    exact hc ((any_id_eq_true acc p.id).mpr hx)

theorem mem_of_mem_foldl_pushIfNew (q : PromptItem) :
    ∀ (ps acc : List PromptItem), q ∈ ps.foldl pushIfNew acc → q ∈ acc ∨ q ∈ ps := by
  intro ps
  induction ps with
  | nil => intro acc h; exact Or.inl h
  | cons p ps ih =>
    intro acc h
    rcases ih (pushIfNew acc p) h with h | h
    · rcases mem_of_mem_pushIfNew acc p q h with h | h
      · exact Or.inl h
      · exact Or.inr (h ▸ List.mem_cons_self _ _)
    · exact Or.inr (List.mem_cons_of_mem _ h)

theorem mem_foldl_pushIfNew_of_mem (q : PromptItem) :
    ∀ (ps acc : List PromptItem), q ∈ acc → q ∈ ps.foldl pushIfNew acc := by
  intro ps
  induction ps with
  | nil => intro acc h; exact h
  | cons p ps ih =>
    intro acc h
    exact ih _ (mem_pushIfNew_of_mem acc p q h)

theorem promptIds_foldl_pushIfNew (x : String) :
    ∀ (ps acc : List PromptItem),
      x ∈ promptIds (ps.foldl pushIfNew acc) ↔ x ∈ promptIds acc ∨ x ∈ promptIds ps := by
  intro ps
  induction ps with
  | nil => intro acc; simp [promptIds]
  | cons p ps ih =>
    intro acc
    rw [List.foldl_cons, ih (pushIfNew acc p), promptIds_pushIfNew]
    simp only [promptIds, List.map_cons, List.mem_cons]
    tauto

theorem nodup_foldl_pushIfNew :
    ∀ (ps acc : List PromptItem), (promptIds acc).Nodup →
      (promptIds (ps.foldl pushIfNew acc)).Nodup := by
  intro ps
  induction ps with
  | nil => intro acc h; exact h
  | cons p ps ih =>
    intro acc h
    exact ih _ (nodup_pushIfNew acc p h)

theorem mem_of_mem_catFold (prompts : List PromptItem) (q : PromptItem) :
    ∀ (cids : List String) (acc : List PromptItem),
      q ∈ cids.foldl (fun acc cid =>
          (prompts.filter (fun p => p.categoryId == some cid)).foldl pushIfNew acc) acc →
      q ∈ acc ∨ q ∈ prompts := by
  intro cids
  induction cids with
  | nil => intro acc h; exact Or.inl h
  | cons cid cids ih =>
    intro acc h
    rcases ih _ h with h | h
    · rcases mem_of_mem_foldl_pushIfNew q _ _ h with h | h
      · exact Or.inl h
      · exact Or.inr (List.mem_filter.mp h).1
    · exact Or.inr h

theorem mem_catFold_of_mem (prompts : List PromptItem) (q : PromptItem) :
    ∀ (cids : List String) (acc : List PromptItem), q ∈ acc →
      q ∈ cids.foldl (fun acc cid =>
          (prompts.filter (fun p => p.categoryId == some cid)).foldl pushIfNew acc) acc := by
  intro cids
  induction cids with
  | nil => intro acc h; exact h
  | cons cid cids ih =>
    intro acc h
    exact ih _ (mem_foldl_pushIfNew_of_mem q _ acc h)

theorem promptIds_catFold (prompts : List PromptItem) (x : String) :
    ∀ (cids : List String) (acc : List PromptItem),
      x ∈ promptIds (cids.foldl (fun acc cid =>
          (prompts.filter (fun p => p.categoryId == some cid)).foldl pushIfNew acc) acc) ↔
      x ∈ promptIds acc ∨ ∃ cid ∈ cids,
        x ∈ promptIds (prompts.filter (fun p => p.categoryId == some cid)) := by
  intro cids
  induction cids with
  | nil => intro acc; simp
  | cons cid cids ih =>
    intro acc
    rw [List.foldl_cons, ih, promptIds_foldl_pushIfNew]
    constructor
    · rintro ((h | h) | ⟨c, hc, h⟩)
      · exact Or.inl h
      · exact Or.inr ⟨cid, List.mem_cons_self _ _, h⟩
      · exact Or.inr ⟨c, List.mem_cons_of_mem _ hc, h⟩
    · rintro (h | ⟨c, hc, h⟩)
      · exact Or.inl (Or.inl h)
      · rcases List.mem_cons.mp hc with rfl | hc
        · exact Or.inl (Or.inr h)
        · exact Or.inr ⟨c, hc, h⟩

theorem nodup_catFold (prompts : List PromptItem) :
    ∀ (cids : List String) (acc : List PromptItem), (promptIds acc).Nodup →
      (promptIds (cids.foldl (fun acc cid =>
          (prompts.filter (fun p => p.categoryId == some cid)).foldl pushIfNew acc)
        acc)).Nodup := by
  intro cids
  induction cids with
  | nil => intro acc h; exact h
  | cons cid cids ih =>
    intro acc h
    exact ih _ (nodup_foldl_pushIfNew _ acc h)

theorem eq_of_same_id (prompts : List PromptItem) (hn : (promptIds prompts).Nodup)
    {a b : PromptItem} (ha : a ∈ prompts) (hb : b ∈ prompts) (hid : a.id = b.id) : a = b :=
  List.inj_on_of_nodup_map hn ha hb hid

theorem matchedPrompts_subset (term : String) (prompts : List PromptItem)
    (categories : List PromptCategory) (q : PromptItem)
    (h : q ∈ matchedPrompts term prompts categories) : q ∈ prompts := by
  unfold matchedPrompts at h
  rcases mem_of_mem_catFold prompts q _ _ h with h | h
  · exact (List.mem_filter.mp h).1
  · exact h

theorem nodup_matchedPrompts (term : String) (prompts : List PromptItem)
    (categories : List PromptCategory) (hn : (promptIds prompts).Nodup) :
    (promptIds (matchedPrompts term prompts categories)).Nodup := by
  unfold matchedPrompts
  refine nodup_catFold prompts _ _ ?_
  exact ((List.filter_sublist prompts).map PromptItem.id).nodup hn

theorem categoryNameMatch_some (term : String) (categories : List PromptCategory)
    (p : PromptItem) (cid : String) (h : p.categoryId = some cid) :
    categoryNameMatch term categories p =
      categories.any (fun c => jsIncludes (jsToLower c.name) term && c.id == cid) := by
  unfold categoryNameMatch
  rw [h]

theorem mem_matchedPrompts_iff (term : String) (prompts : List PromptItem)
    (categories : List PromptCategory) (hn : (promptIds prompts).Nodup)
    (p : PromptItem) (hp : p ∈ prompts) :
    p ∈ matchedPrompts term prompts categories ↔
      (directMatch term p = true ∨ categoryNameMatch term categories p = true) := by
  constructor
  · intro h
    have hid : p.id ∈ promptIds (matchedPrompts term prompts categories) :=
      List.mem_map_of_mem PromptItem.id h
    unfold matchedPrompts at hid
    rcases (promptIds_catFold prompts p.id _ _).mp hid with hid | ⟨cid, hcid, hid⟩
    · obtain ⟨q, hq, hqid⟩ := List.mem_map.mp hid
      have hqf := List.mem_filter.mp hq
      have hqp : q = p := eq_of_same_id prompts hn hqf.1 hp hqid
      exact Or.inl (hqp ▸ hqf.2)
    · obtain ⟨q, hq, hqid⟩ := List.mem_map.mp hid
      have hqf := List.mem_filter.mp hq
      have hqp : q = p := eq_of_same_id prompts hn hqf.1 hp hqid
      right
      have hpc : p.categoryId = some cid := by
        have h2 := hqf.2
        rw [hqp] at h2
        exact beq_iff_eq.mp h2
      rw [categoryNameMatch_some term categories p cid hpc]
      obtain ⟨c, hc, hcid2⟩ := List.mem_map.mp hcid
      have hcf := List.mem_filter.mp hc
      rw [List.any_eq_true]
      exact ⟨c, hcf.1, by simp [hcf.2, hcid2]⟩
  · rintro (h | h)
    · unfold matchedPrompts
      exact mem_catFold_of_mem prompts p _ _ (List.mem_filter.mpr ⟨hp, h⟩)
    · cases hpc : p.categoryId with
      | none => simp [categoryNameMatch, hpc] at h
      | some cid =>
        rw [categoryNameMatch_some term categories p cid hpc] at h
        obtain ⟨c, hc, hcc⟩ := List.any_eq_true.mp h
        obtain ⟨hinc, hcid⟩ : jsIncludes (jsToLower c.name) term = true ∧ c.id = cid := by
          simpa using hcc
        have hcm : cid ∈ matchedCategoryIds term categories := by
          unfold matchedCategoryIds
          exact List.mem_map.mpr ⟨c, List.mem_filter.mpr ⟨hc, hinc⟩, hcid⟩
        have hpid : p.id ∈ promptIds (matchedPrompts term prompts categories) := by
          unfold matchedPrompts
          rw [promptIds_catFold]
          exact Or.inr ⟨cid, hcm, List.mem_map_of_mem _ (List.mem_filter.mpr ⟨hp, by simp [hpc]⟩)⟩
        obtain ⟨q, hq, hqid⟩ := List.mem_map.mp hpid
        have hqmem : q ∈ prompts := matchedPrompts_subset term prompts categories q hq
        have hqp : q = p := eq_of_same_id prompts hn hqmem hp hqid
        exact hqp ▸ hq

theorem searchLe_trans (term : String) (a b c : PromptItem) :
    searchLe term a b = true → searchLe term b c = true → searchLe term a c = true := by
  intro h1 h2
  unfold searchLe at h1 h2 ⊢
  cases ha : titleMatches term a <;> cases hb : titleMatches term b <;>
      cases hc : titleMatches term c <;>
    simp [ha, hb, hc] at h1 h2 ⊢
  · exact strLe_trans _ _ _ h1 h2
  · exact strLe_trans _ _ _ h1 h2

theorem searchLe_total (term : String) (a b : PromptItem) :
    searchLe term a b = true ∨ searchLe term b a = true := by
  unfold searchLe
  cases ha : titleMatches term a <;> cases hb : titleMatches term b <;> simp [ha, hb]
  · exact strLe_total _ _
  · exact strLe_total _ _

theorem searchLe_imp (term : String) (a b : PromptItem) (h : searchLe term a b = true) :
    (titleMatches term b = true → titleMatches term a = true) ∧
    (titleMatches term a = titleMatches term b → strLe a.title b.title = true) := by
  unfold searchLe at h
  cases ha : titleMatches term a <;> cases hb : titleMatches term b <;> simp [ha, hb] at h ⊢
  · exact h
  · exact h

/-- C4: for every non-blank search filter, on stores with pairwise distinct
prompt ids, the search result contains exactly the prompts matching directly
(title, tag or content) or through their category's name, each exactly once
(the id list of the result is duplicate-free), ordered so that every prompt
whose lowercased title contains the term precedes every prompt matching only
otherwise, with titles in lexicographic order inside each tier; the emitted
tree items are exactly these prompts in order, wrapped as leaves. -/
theorem c4_search_dedup_and_ranking (f : String) (prompts : List PromptItem)
    (categories : List PromptCategory)
    (hb : jsTrim f ≠ "") (hn : (promptIds prompts).Nodup) :
    (∀ p ∈ prompts, (p ∈ searchResultPrompts f prompts categories ↔
        directMatch (searchTermOf f) p = true ∨
        categoryNameMatch (searchTermOf f) categories p = true)) ∧
    (∀ q ∈ searchResultPrompts f prompts categories, q ∈ prompts) ∧
    (promptIds (searchResultPrompts f prompts categories)).Nodup ∧
    (searchResultPrompts f prompts categories).Pairwise (fun a b =>
      (titleMatches (searchTermOf f) b = true → titleMatches (searchTermOf f) a = true) ∧
      (titleMatches (searchTermOf f) a = titleMatches (searchTermOf f) b →
        strLe a.title b.title = true)) ∧
    getSearchResults f prompts categories =
      (searchResultPrompts f prompts categories).map (fun p => createPromptItem p none) := by
  have hperm : (searchResultPrompts f prompts categories).Perm
      (matchedPrompts (searchTermOf f) prompts categories) :=
    List.perm_insertionSort _ _
  refine ⟨?_, ?_, ?_, ?_, ?_⟩
  · intro p hp
    rw [hperm.mem_iff]
    exact mem_matchedPrompts_iff (searchTermOf f) prompts categories hn p hp
  · intro q hq
    exact matchedPrompts_subset _ _ _ q (hperm.mem_iff.mp hq)
  · exact ((hperm.map PromptItem.id).nodup_iff).mpr
      (nodup_matchedPrompts _ prompts categories hn)
  · haveI : IsTotal PromptItem (fun a b => searchLe (searchTermOf f) a b = true) :=
      ⟨fun a b => searchLe_total (searchTermOf f) a b⟩
    haveI : IsTrans PromptItem (fun a b => searchLe (searchTermOf f) a b = true) :=
      ⟨fun a b c => searchLe_trans (searchTermOf f) a b c⟩
    have hs := List.sorted_insertionSort (fun a b => searchLe (searchTermOf f) a b = true)
      (matchedPrompts (searchTermOf f) prompts categories)
    exact List.Pairwise.imp (fun hab => searchLe_imp _ _ _ hab) hs
  · have hne : (f == "") = false := by
      apply beq_eq_false_iff_ne.mpr
      intro hf
      exact hb (by rw [hf]; rfl)
    simp [getSearchResults, hne]

/-- Closed instance of `c4_search_dedup_and_ranking`: the two example
prompts from the specification — the title match is listed first, the tag
match second, neither duplicated. -/
theorem c4_search_dedup_and_ranking_witness :
    searchResultPrompts "refactor" [rP2, rP1] [] = [rP1, rP2] ∧
    rP1 ∈ searchResultPrompts "refactor" [rP2, rP1] [] ∧
    (promptIds (searchResultPrompts "refactor" [rP2, rP1] [])).Nodup := by
  have h := c4_search_dedup_and_ranking "refactor" [rP2, rP1] [] (by decide) (by decide)
  exact ⟨by decide, (h.1 rP1 (by decide)).mpr (Or.inl (by decide)), h.2.2.1⟩
